import Mathlib

/-!
Verification of the dungeon-queue scheduler (`src/main.cpp`, `src/unnamed/part_000`).

The program keeps a shared pool of player counters (`tanks`, `healers`, `dps` —
C++ `int` globals, modelled as `Int`), a list of dungeon `Instance` slots, and a
global `stopFlag`.  A dedicated scheduler thread repeatedly wakes, scans the
slots in order and assigns at most one party per cycle (debiting the pool by
`(1, 1, 3)`), then checks the termination condition; each slot runs its dungeon
for a drawn duration and publishes completion.  All state mutations other than
the elapsed-time ticks happen while holding the single global mutex, so the
interleaving semantics is modelled as a step relation whose atomic steps are:
one full scheduler loop body, a slot starting its run, one elapsed-time tick,
and a slot publishing completion.
-/

namespace Dungeon

/-- Mirror of `struct Instance` from `src/main.cpp` (lines 21–43): identity and
the mutable fields touched by the scheduler and the slot thread.  The
condition-variable and thread handles carry no data and are omitted. -/
structure Instance where
  id : Int
  hasParty : Bool
  running : Bool
  partiesServed : Int
  totalTime : Int
  currentTimeElapsed : Int
  currDungeonDuration : Int
deriving DecidableEq, Repr

/-- The shared mutable state of `src/main.cpp`: the three pool counters, the
stop flag, and the ordered slot list (`vector<shared_ptr<Instance>> instances`). -/
structure SysState where
  tanks : Int
  healers : Int
  dps : Int
  stopFlag : Bool
  instances : List Instance
deriving DecidableEq, Repr

/-- Startup configuration read in `main` (lines 157–170): instance count, the
three initial pool counters, and the duration bounds `t1 ≤ t2`. -/
structure Config where
  numInstances : Nat
  tanks : Int
  healers : Int
  dps : Int
  t1 : Int
  t2 : Int
deriving DecidableEq, Repr

/-- A freshly constructed `Instance(id_)`: all counters zero, both flags false. -/
def initInstance (i : Int) : Instance :=
  { id := i, hasParty := false, running := false, partiesServed := 0,
    totalTime := 0, currentTimeElapsed := 0, currDungeonDuration := 0 }

/-- The slot list built by `main` (lines 173–177): ids `1, …, n` in creation
order. -/
def initInstances (n : Nat) : List Instance :=
  (List.range n).map (fun k : Nat => initInstance ((k : Int) + 1))

/-- The state of the system right after startup. -/
def initState (cfg : Config) : SysState :=
  { tanks := cfg.tanks, healers := cfg.healers, dps := cfg.dps,
    stopFlag := false, instances := initInstances cfg.numInstances }

/-- Result of the scheduler's assignment scan (lines 112–127): final pool
counters, updated slot list, and the `partyAssigned` flag. -/
structure ScanResult where
  tanks : Int
  healers : Int
  dps : Int
  instances : List Instance
  partyAssigned : Bool
deriving DecidableEq, Repr

/-- The assignment loop of `schedulerThread` (lines 112–127): walk the slots in
order; at the first slot with `!hasParty && !running` while
`tanks ≥ 1 && healers ≥ 1 && dps ≥ 3`, debit `(1, 1, 3)`, set `hasParty`, and
stop scanning (`break`). -/
def assignScan (tanks healers dps : Int) : List Instance → ScanResult
  | [] => { tanks := tanks, healers := healers, dps := dps,
            instances := [], partyAssigned := false }
  | inst :: rest =>
    if inst.hasParty = false ∧ inst.running = false ∧
        tanks ≥ 1 ∧ healers ≥ 1 ∧ dps ≥ 3 then
      { tanks := tanks - 1, healers := healers - 1, dps := dps - 3,
        instances := { inst with hasParty := true } :: rest, partyAssigned := true }
    else
      let r := assignScan tanks healers dps rest
      { tanks := r.tanks, healers := r.healers, dps := r.dps,
        instances := inst :: r.instances, partyAssigned := r.partyAssigned }

/-- The scheduler's wake predicate (lines 98–105): pool satisfies the party
rule, or the stop flag is set, or some slot is free, or there are no slots. -/
def wakeCond (s : SysState) : Prop :=
  (s.tanks ≥ 1 ∧ s.healers ≥ 1 ∧ s.dps ≥ 3) ∨ s.stopFlag = true ∨
    s.instances.any (fun i => !i.hasParty && !i.running) = true ∨ s.instances = []

instance (s : SysState) : Decidable (wakeCond s) := by
  unfold wakeCond; infer_instance

/-- One pass of the scheduler loop body (lines 97–154), executed with the
global mutex held: on `stopFlag` break (no state change); otherwise run the
assignment scan, recompute `hasMorePlayers` and `anyRunning`, and set the stop
flag when neither holds.  The backoff sleep touches no state. -/
def schedulerCycle (s : SysState) : SysState :=
  if s.stopFlag then s
  else
    let r := assignScan s.tanks s.healers s.dps s.instances
    if ¬(r.tanks ≥ 1 ∧ r.healers ≥ 1 ∧ r.dps ≥ 3) ∧
        r.instances.any (fun i => i.hasParty || i.running) = false then
      { tanks := r.tanks, healers := r.healers, dps := r.dps,
        stopFlag := true, instances := r.instances }
    else
      { tanks := r.tanks, healers := r.healers, dps := r.dps,
        stopFlag := false, instances := r.instances }

/-- Start of a dungeon run in `instanceThread` (lines 65–67): record the drawn
duration and set `running`, still under the mutex. -/
def startRun (d : Int) (inst : Instance) : Instance :=
  { inst with running := true, currDungeonDuration := d }

/-- One elapsed-time tick of the run loop (lines 72–77), performed with the
mutex released. -/
def tickRun (inst : Instance) : Instance :=
  { inst with currentTimeElapsed := inst.currentTimeElapsed + 1 }

/-- Number of `currentTimeElapsed` increments a run of drawn duration `d`
performs (lines 71–77): one unconditional increment, then one per iteration of
`for (int i = 1; i < duration; ++i)`, which runs `max 0 (d - 1)` times. -/
def ticksTotal (d : Int) : Int :=
  1 + max 0 (d - 1)

/-- Completion write-back of `instanceThread` (lines 80–84), under the mutex:
clear both flags, bump `partiesServed`, add the duration to `totalTime`, and
reset the elapsed counter. -/
def completeRun (inst : Instance) : Instance :=
  { inst with
    running := false
    hasParty := false
    partiesServed := inst.partiesServed + 1
    totalTime := inst.totalTime + inst.currDungeonDuration
    currentTimeElapsed := 0 }

/-- Replace the element at position `i` by its image under `f`; the list is
unchanged when `i` is out of range. -/
def modifyIdx (f : Instance → Instance) : Nat → List Instance → List Instance
  | _, [] => []
  | 0, x :: xs => f x :: xs
  | n + 1, x :: xs => x :: modifyIdx f n xs

/-- Interleaving semantics of the process.  `sched` is one scheduler loop body
(atomic: the scheduler holds the mutex for the whole body).  `start` fires for
a slot that holds a party and has not begun running, provided shutdown was not
signalled (the slot thread re-checks `stopFlag` before starting, lines 58–67);
the drawn duration lies in the configured bounds.  `tick` advances the elapsed
counter of a running slot that still has increments left, and `complete` fires
once all `ticksTotal` increments are done (lines 80–84). -/
inductive Step (t1 t2 : Int) : SysState → SysState → Prop where
  | sched {s : SysState} :
      wakeCond s → Step t1 t2 s (schedulerCycle s)
  | start {s : SysState} (i : Nat) (d : Int) (inst : Instance) :
      s.stopFlag = false → s.instances[i]? = some inst →
      inst.hasParty = true → inst.running = false →
      t1 ≤ d → d ≤ t2 →
      Step t1 t2 s { s with instances := modifyIdx (startRun d) i s.instances }
  | tick {s : SysState} (i : Nat) (inst : Instance) :
      s.instances[i]? = some inst → inst.running = true →
      inst.currentTimeElapsed < ticksTotal inst.currDungeonDuration →
      Step t1 t2 s { s with instances := modifyIdx tickRun i s.instances }
  | complete {s : SysState} (i : Nat) (inst : Instance) :
      s.instances[i]? = some inst → inst.running = true →
      inst.currentTimeElapsed = ticksTotal inst.currDungeonDuration →
      Step t1 t2 s { s with instances := modifyIdx completeRun i s.instances }

/-- States reachable from the initial state of a configuration. -/
def Reachable (cfg : Config) (s : SysState) : Prop :=
  Relation.ReflTransGen (Step cfg.t1 cfg.t2) (initState cfg) s

/-- Lifetime completions summed over all slots. -/
def servedSum (l : List Instance) : Int :=
  (l.map (fun i => i.partiesServed)).sum

/-- Number of slots currently holding an in-flight assignment (`hasParty`). -/
def inflightSum (l : List Instance) : Int :=
  (l.map (fun i => if i.hasParty then (1 : Int) else 0)).sum

/-- The ids of the slots as created at startup. -/
def idsList (n : Nat) : List Int :=
  (List.range n).map (fun k : Nat => (k : Int) + 1)

/-- Facts about a single slot that hold in every reachable state: a running
slot holds a party; the elapsed counter stays within `[0, max 1 duration]`;
and it is zero whenever the slot is not running. -/
def SlotInv (inst : Instance) : Prop :=
  (inst.running = true → inst.hasParty = true) ∧
  0 ≤ inst.currentTimeElapsed ∧
  inst.currentTimeElapsed ≤ max 1 inst.currDungeonDuration ∧
  (inst.running = false → inst.currentTimeElapsed = 0)

/-- The master invariant: component-wise resource conservation against the
initial pool, plus the per-slot facts. -/
def Inv (cfg : Config) (s : SysState) : Prop :=
  s.tanks + servedSum s.instances + inflightSum s.instances = cfg.tanks ∧
  s.healers + servedSum s.instances + inflightSum s.instances = cfg.healers ∧
  s.dps + 3 * servedSum s.instances + 3 * inflightSum s.instances = cfg.dps ∧
  ∀ inst ∈ s.instances, SlotInv inst

/-- Configuration with one slot, pool `(1, 1, 3)` and duration range `[0, 0]`,
accepted by the validated input loop of `src/unnamed/part_000` (it rejects only
negative values and `t2 < t1`). -/
def cfgC5 : Config :=
  { numInstances := 1, tanks := 1, healers := 1, dps := 3, t1 := 0, t2 := 0 }

/-- The slot of `cfgC5` mid-run: occupied with drawn duration `0`, after the
run loop's unconditional first tick. -/
def badInstance : Instance :=
  { id := 1, hasParty := true, running := true, partiesServed := 0,
    totalTime := 0, currentTimeElapsed := 1, currDungeonDuration := 0 }

/-- The state of `cfgC5` reached after assignment, run start, and one tick. -/
def badState : SysState :=
  { tanks := 0, healers := 0, dps := 0, stopFlag := false,
    instances := [badInstance] }

/-- Configuration with zero slots and a pool that satisfies the party rule. -/
def cfgC1 : Config :=
  { numInstances := 0, tanks := 1, healers := 1, dps := 3, t1 := 2, t2 := 2 }

/-- Scenario A configuration: one slot, pool `(1, 1, 3)`, durations fixed to 2. -/
def cfgC7 : Config :=
  { numInstances := 1, tanks := 1, healers := 1, dps := 3, t1 := 2, t2 := 2 }

/-- The shutdown state of Scenario A: empty pool, stop flag set, the slot idle
with one completion and two occupied seconds. -/
def c7Final : SysState :=
  { tanks := 0, healers := 0, dps := 0, stopFlag := true,
    instances := [{ id := 1, hasParty := false, running := false,
                    partiesServed := 1, totalTime := 2, currentTimeElapsed := 0,
                    currDungeonDuration := 2 }] }

/-- The seven states the Scenario A system can ever be in: initial, assigned,
running with elapsed 0, 1, 2, completed, and stopped. -/
def C7Set (s : SysState) : Prop :=
  s = { tanks := 1, healers := 1, dps := 3, stopFlag := false,
        instances := [{ id := 1, hasParty := false, running := false,
                        partiesServed := 0, totalTime := 0,
                        currentTimeElapsed := 0, currDungeonDuration := 0 }] } ∨
  s = { tanks := 0, healers := 0, dps := 0, stopFlag := false,
        instances := [{ id := 1, hasParty := true, running := false,
                        partiesServed := 0, totalTime := 0,
                        currentTimeElapsed := 0, currDungeonDuration := 0 }] } ∨
  s = { tanks := 0, healers := 0, dps := 0, stopFlag := false,
        instances := [{ id := 1, hasParty := true, running := true,
                        partiesServed := 0, totalTime := 0,
                        currentTimeElapsed := 0, currDungeonDuration := 2 }] } ∨
  s = { tanks := 0, healers := 0, dps := 0, stopFlag := false,
        instances := [{ id := 1, hasParty := true, running := true,
                        partiesServed := 0, totalTime := 0,
                        currentTimeElapsed := 1, currDungeonDuration := 2 }] } ∨
  s = { tanks := 0, healers := 0, dps := 0, stopFlag := false,
        instances := [{ id := 1, hasParty := true, running := true,
                        partiesServed := 0, totalTime := 0,
                        currentTimeElapsed := 2, currDungeonDuration := 2 }] } ∨
  s = { tanks := 0, healers := 0, dps := 0, stopFlag := false,
        instances := [{ id := 1, hasParty := false, running := false,
                        partiesServed := 1, totalTime := 2,
                        currentTimeElapsed := 0, currDungeonDuration := 2 }] } ∨
  s = c7Final

/-- Result of the assignment scan of `src/unnamed/part_000` (lines 112–128),
which additionally threads the global `partyNum` counter. -/
structure ScanResult2 where
  tanks : Int
  healers : Int
  dps : Int
  partyNum : Int
  instances : List Instance
  partyAssigned : Bool
deriving DecidableEq, Repr

/-- The assignment loop of `schedulerThread` in `src/unnamed/part_000`
(lines 112–128): identical to `src/main.cpp` except that the success branch
also increments `partyNum`. -/
def assignScan2 (tanks healers dps partyNum : Int) : List Instance → ScanResult2
  | [] => { tanks := tanks, healers := healers, dps := dps,
            partyNum := partyNum, instances := [], partyAssigned := false }
  | inst :: rest =>
    if inst.hasParty = false ∧ inst.running = false ∧
        tanks ≥ 1 ∧ healers ≥ 1 ∧ dps ≥ 3 then
      { tanks := tanks - 1, healers := healers - 1, dps := dps - 3,
        partyNum := partyNum + 1,
        instances := { inst with hasParty := true } :: rest, partyAssigned := true }
    else
      let r := assignScan2 tanks healers dps partyNum rest
      { tanks := r.tanks, healers := r.healers, dps := r.dps,
        partyNum := r.partyNum,
        instances := inst :: r.instances, partyAssigned := r.partyAssigned }

/-- The shared mutable state of `src/unnamed/part_000`: the same fields as
`src/main.cpp` plus the global `partyNum` counter (initialised to 1). -/
structure SysState2 where
  tanks : Int
  healers : Int
  dps : Int
  partyNum : Int
  stopFlag : Bool
  instances : List Instance
deriving DecidableEq, Repr

/-- Forget the `partyNum` counter, keeping the observable state the claim
compares. -/
def toSysState (s : SysState2) : SysState :=
  { tanks := s.tanks, healers := s.healers, dps := s.dps,
    stopFlag := s.stopFlag, instances := s.instances }

/-- The scheduler wake predicate of `src/unnamed/part_000` (lines 98–106),
textually identical to the one in `src/main.cpp`. -/
def wakeCond2 (s : SysState2) : Prop :=
  (s.tanks ≥ 1 ∧ s.healers ≥ 1 ∧ s.dps ≥ 3) ∨ s.stopFlag = true ∨
    s.instances.any (fun i => !i.hasParty && !i.running) = true ∨ s.instances = []

instance (s : SysState2) : Decidable (wakeCond2 s) := by
  unfold wakeCond2; infer_instance

/-- One pass of the scheduler loop body of `src/unnamed/part_000`
(lines 96–155): the same computation as `src/main.cpp` with `partyNum`
threaded through. -/
def schedulerCycle2 (s : SysState2) : SysState2 :=
  if s.stopFlag then s
  else
    let r := assignScan2 s.tanks s.healers s.dps s.partyNum s.instances
    if ¬(r.tanks ≥ 1 ∧ r.healers ≥ 1 ∧ r.dps ≥ 3) ∧
        r.instances.any (fun i => i.hasParty || i.running) = false then
      { tanks := r.tanks, healers := r.healers, dps := r.dps,
        partyNum := r.partyNum, stopFlag := true, instances := r.instances }
    else
      { tanks := r.tanks, healers := r.healers, dps := r.dps,
        partyNum := r.partyNum, stopFlag := false, instances := r.instances }

/-- Startup state of `src/unnamed/part_000`: same as `src/main.cpp` with
`partyNum = 1`. -/
def initState2 (cfg : Config) : SysState2 :=
  { tanks := cfg.tanks, healers := cfg.healers, dps := cfg.dps, partyNum := 1,
    stopFlag := false, instances := initInstances cfg.numInstances }

/-- Interleaving semantics of `src/unnamed/part_000`.  The slot-thread steps
are textually identical to `src/main.cpp` (its `instanceThread` differs only
in a comment) and never touch `partyNum`; the scheduler step uses the
`partyNum`-threading cycle. -/
inductive Step2 (t1 t2 : Int) : SysState2 → SysState2 → Prop where
  | sched {s : SysState2} :
      wakeCond2 s → Step2 t1 t2 s (schedulerCycle2 s)
  | start {s : SysState2} (i : Nat) (d : Int) (inst : Instance) :
      s.stopFlag = false → s.instances[i]? = some inst →
      inst.hasParty = true → inst.running = false →
      t1 ≤ d → d ≤ t2 →
      Step2 t1 t2 s { s with instances := modifyIdx (startRun d) i s.instances }
  | tick {s : SysState2} (i : Nat) (inst : Instance) :
      s.instances[i]? = some inst → inst.running = true →
      inst.currentTimeElapsed < ticksTotal inst.currDungeonDuration →
      Step2 t1 t2 s { s with instances := modifyIdx tickRun i s.instances }
  | complete {s : SysState2} (i : Nat) (inst : Instance) :
      s.instances[i]? = some inst → inst.running = true →
      inst.currentTimeElapsed = ticksTotal inst.currDungeonDuration →
      Step2 t1 t2 s { s with instances := modifyIdx completeRun i s.instances }

lemma ticksTotal_eq_max (d : Int) : ticksTotal d = max 1 d := by
  unfold ticksTotal
  rcases le_total d 1 with h | h
  · rw [max_eq_left (by omega), max_eq_left h]
    omega
  · rw [max_eq_right (by omega), max_eq_right h]
    omega

lemma modifyIdx_nil (f : Instance → Instance) (i : Nat) :
    modifyIdx f i [] = [] := by
  cases i <;> rfl

lemma modifyIdx_getElem?_self {f : Instance → Instance} {i : Nat}
    {l : List Instance} {inst : Instance} (h : l[i]? = some inst) :
    (modifyIdx f i l)[i]? = some (f inst) := by
  induction l generalizing i with
  | nil => simp at h
  | cons x xs ih =>
    cases i with
    | zero =>
      simp only [List.getElem?_cons_zero, Option.some.injEq] at h
      subst h
      simp [modifyIdx]
    | succ n =>
      simp only [List.getElem?_cons_succ] at h
      simpa [modifyIdx] using ih h

lemma modifyIdx_getElem?_ne {f : Instance → Instance} {i j : Nat}
    (l : List Instance) (hne : j ≠ i) :
    (modifyIdx f i l)[j]? = l[j]? := by
  induction l generalizing i j with
  | nil => simp [modifyIdx_nil]
  | cons x xs ih =>
    cases i with
    | zero =>
      cases j with
      | zero => exact absurd rfl hne
      | succ m => simp [modifyIdx]
    | succ n =>
      cases j with
      | zero => simp [modifyIdx]
      | succ m =>
        simp only [modifyIdx, List.getElem?_cons_succ]
        exact ih (fun hc => hne (by omega))

lemma modifyIdx_map_congr {α : Type} (f : Instance → Instance)
    (g : Instance → α) (hg : ∀ x, g (f x) = g x) (i : Nat) (l : List Instance) :
    (modifyIdx f i l).map g = l.map g := by
  induction l generalizing i with
  | nil => simp [modifyIdx_nil]
  | cons x xs ih =>
    cases i with
    | zero => simp [modifyIdx, hg]
    | succ n => simp [modifyIdx, ih]

lemma modifyIdx_map_sum {f : Instance → Instance} (g : Instance → Int)
    {i : Nat} {l : List Instance} {inst : Instance} (h : l[i]? = some inst) :
    ((modifyIdx f i l).map g).sum = (l.map g).sum + (g (f inst) - g inst) := by
  induction l generalizing i with
  | nil => simp at h
  | cons x xs ih =>
    cases i with
    | zero =>
      simp only [List.getElem?_cons_zero, Option.some.injEq] at h
      subst h
      simp [modifyIdx]
      ring
    | succ n =>
      simp only [List.getElem?_cons_succ] at h
      simp only [modifyIdx, List.map_cons, List.sum_cons, ih h]
      ring

lemma modifyIdx_mem {f : Instance → Instance} {i : Nat} {l : List Instance}
    {x : Instance} (hx : x ∈ modifyIdx f i l) :
    x ∈ l ∨ ∃ y, l[i]? = some y ∧ x = f y := by
  induction l generalizing i with
  | nil => simp [modifyIdx_nil] at hx
  | cons z zs ih =>
    cases i with
    | zero =>
      rcases List.mem_cons.mp hx with h | h
      · exact Or.inr ⟨z, by simp, h⟩
      · exact Or.inl (List.mem_cons_of_mem _ h)
    | succ n =>
      rcases List.mem_cons.mp hx with h | h
      · exact Or.inl (by simp [h])
      · rcases ih h with h2 | ⟨y, hy, hxy⟩
        · exact Or.inl (List.mem_cons_of_mem _ h2)
        · exact Or.inr ⟨y, by simpa using hy, hxy⟩

lemma assignScan_not_assigned {t h d : Int} {l : List Instance}
    (hna : (assignScan t h d l).partyAssigned = false) :
    assignScan t h d l =
      { tanks := t, healers := h, dps := d, instances := l, partyAssigned := false } := by
  induction l with
  | nil => rfl
  | cons x xs ih =>
    by_cases hc : x.hasParty = false ∧ x.running = false ∧
        t ≥ 1 ∧ h ≥ 1 ∧ d ≥ 3
    · simp [assignScan, hc] at hna
    · simp only [assignScan, if_neg hc] at hna ⊢
      rw [ih hna]

lemma assignScan_assigned {t h d : Int} {l : List Instance}
    (ha : (assignScan t h d l).partyAssigned = true) :
    (t ≥ 1 ∧ h ≥ 1 ∧ d ≥ 3) ∧
    (assignScan t h d l).tanks = t - 1 ∧
    (assignScan t h d l).healers = h - 1 ∧
    (assignScan t h d l).dps = d - 3 ∧
    ∃ i inst, l[i]? = some inst ∧ inst.hasParty = false ∧ inst.running = false ∧
      (∀ j y, j < i → l[j]? = some y → ¬(y.hasParty = false ∧ y.running = false)) ∧
      (assignScan t h d l).instances =
        modifyIdx (fun x => { x with hasParty := true }) i l := by
  induction l with
  | nil => simp [assignScan] at ha
  | cons x xs ih =>
    by_cases hc : x.hasParty = false ∧ x.running = false ∧
        t ≥ 1 ∧ h ≥ 1 ∧ d ≥ 3
    · refine ⟨⟨hc.2.2.1, hc.2.2.2.1, hc.2.2.2.2⟩, ?_, ?_, ?_, 0, x, by simp,
        hc.1, hc.2.1, ?_, ?_⟩ <;>
        simp [assignScan, hc, modifyIdx]
    · simp only [assignScan, if_neg hc] at ha ⊢
      obtain ⟨hpool, ht, hh, hd, i, inst, hget, hfree1, hfree2, hmin, hinsts⟩ := ih ha
      refine ⟨hpool, ht, hh, hd, i + 1, inst, by simpa using hget, hfree1, hfree2, ?_, ?_⟩
      · intro j y hj hy
        cases j with
        | zero =>
          simp only [List.getElem?_cons_zero, Option.some.injEq] at hy
          subst hy
          intro hfy
          exact hc ⟨hfy.1, hfy.2, hpool.1, hpool.2.1, hpool.2.2⟩
        | succ m =>
          simp only [List.getElem?_cons_succ] at hy
          exact hmin m y (by omega) hy
      · simp [modifyIdx, hinsts]

lemma assignScan_assigned_iff {t h d : Int} {l : List Instance} :
    (assignScan t h d l).partyAssigned = true ↔
      ((t ≥ 1 ∧ h ≥ 1 ∧ d ≥ 3) ∧
        ∃ x ∈ l, x.hasParty = false ∧ x.running = false) := by
  induction l with
  | nil => simp [assignScan]
  | cons x xs ih =>
    by_cases hc : x.hasParty = false ∧ x.running = false ∧
        t ≥ 1 ∧ h ≥ 1 ∧ d ≥ 3
    · simp only [assignScan, if_pos hc]
      constructor
      · intro _
        exact ⟨⟨hc.2.2.1, hc.2.2.2.1, hc.2.2.2.2⟩, x, by simp, hc.1, hc.2.1⟩
      · intro _
        simp
    · simp only [assignScan, if_neg hc, ih]
      constructor
      · rintro ⟨hpool, y, hy, hfree⟩
        exact ⟨hpool, y, List.mem_cons_of_mem _ hy, hfree⟩
      · rintro ⟨hpool, y, hy, hfree⟩
        rcases List.mem_cons.mp hy with rfl | hy2
        · exact absurd ⟨hfree.1, hfree.2, hpool.1, hpool.2.1, hpool.2.2⟩ hc
        · exact ⟨hpool, y, hy2, hfree⟩

lemma servedSum_init (n : Nat) : servedSum (initInstances n) = 0 := by
  apply List.sum_eq_zero
  intro x hx
  simp only [initInstances, initInstance, servedSum, List.map_map, List.mem_map] at hx
  obtain ⟨k, _, hk⟩ := hx
  simp [← hk]

lemma inflightSum_init (n : Nat) : inflightSum (initInstances n) = 0 := by
  apply List.sum_eq_zero
  intro x hx
  simp only [initInstances, initInstance, inflightSum, List.map_map, List.mem_map] at hx
  obtain ⟨k, _, hk⟩ := hx
  simp [← hk]

lemma inv_init (cfg : Config) : Inv cfg (initState cfg) := by
  refine ⟨?_, ?_, ?_, ?_⟩ <;>
    simp only [initState, servedSum_init, inflightSum_init]
  · ring
  · ring
  · ring
  · intro inst hinst
    simp only [initInstances, List.mem_map] at hinst
    obtain ⟨k, _, hk⟩ := hinst
    subst hk
    refine ⟨by simp [initInstance], by simp [initInstance], ?_, by simp [initInstance]⟩
    simp only [initInstance]
    exact le_trans zero_le_one (le_max_left 1 0)

lemma slotInv_assign {inst : Instance} (hi : SlotInv inst)
    (_hrun : inst.running = false) : SlotInv { inst with hasParty := true } := by
  obtain ⟨_, h2, h3, h4⟩ := hi
  exact ⟨fun hr => by simp, h2, h3, h4⟩

lemma schedulerCycle_of_stop {s : SysState} (h : s.stopFlag = true) :
    schedulerCycle s = s := by
  simp [schedulerCycle, h]

lemma schedulerCycle_fields {s : SysState} (h : s.stopFlag = false) :
    (schedulerCycle s).tanks = (assignScan s.tanks s.healers s.dps s.instances).tanks ∧
    (schedulerCycle s).healers = (assignScan s.tanks s.healers s.dps s.instances).healers ∧
    (schedulerCycle s).dps = (assignScan s.tanks s.healers s.dps s.instances).dps ∧
    (schedulerCycle s).instances =
      (assignScan s.tanks s.healers s.dps s.instances).instances := by
  simp only [schedulerCycle, h, Bool.false_eq_true, if_false]
  split <;> exact ⟨rfl, rfl, rfl, rfl⟩


lemma schedulerCycle_stopFlag {s : SysState} (h : s.stopFlag = false) :
    (schedulerCycle s).stopFlag = true ↔
      (¬((assignScan s.tanks s.healers s.dps s.instances).tanks ≥ 1 ∧
          (assignScan s.tanks s.healers s.dps s.instances).healers ≥ 1 ∧
          (assignScan s.tanks s.healers s.dps s.instances).dps ≥ 3) ∧
        (assignScan s.tanks s.healers s.dps s.instances).instances.any
          (fun i => i.hasParty || i.running) = false) := by
  simp only [schedulerCycle, h, Bool.false_eq_true, if_false]
  split_ifs with hc
  · simpa using hc
  · simpa using hc

lemma sched_inv {cfg : Config} {s : SysState} (hinv : Inv cfg s) :
    Inv cfg (schedulerCycle s) := by
  obtain ⟨ht, hh, hd, hslots⟩ := hinv
  by_cases hstop : s.stopFlag = true
  · rw [schedulerCycle_of_stop hstop]
    exact ⟨ht, hh, hd, hslots⟩
  · rw [Bool.not_eq_true] at hstop
    obtain ⟨et, eh, ed, ei⟩ := schedulerCycle_fields hstop
    rcases hassigned : (assignScan s.tanks s.healers s.dps s.instances).partyAssigned with _ | _
    · have hid := assignScan_not_assigned hassigned
      rw [Inv, et, eh, ed, ei, hid]
      exact ⟨ht, hh, hd, hslots⟩
    · obtain ⟨hpool, htk, hhl, hdp, i, inst, hget, hfp, hrn, _, hinsts⟩ :=
        assignScan_assigned hassigned
      have hserved : servedSum (assignScan s.tanks s.healers s.dps s.instances).instances
          = servedSum s.instances := by
        rw [hinsts]
        exact congrArg List.sum
          (modifyIdx_map_congr (fun x => { x with hasParty := true })
            (fun x => x.partiesServed) (fun x => rfl) i s.instances)
      have hinflight : inflightSum (assignScan s.tanks s.healers s.dps s.instances).instances
          = inflightSum s.instances + 1 := by
        unfold inflightSum
        rw [hinsts, modifyIdx_map_sum _ hget]
        simp [hfp]
      have hmem : ∀ x ∈ (assignScan s.tanks s.healers s.dps s.instances).instances,
          SlotInv x := by
        intro x hx
        rw [hinsts] at hx
        rcases modifyIdx_mem hx with hx2 | ⟨y, hy, hxy⟩
        · exact hslots x hx2
        · rw [hget] at hy
          cases hy
          subst hxy
          exact slotInv_assign (hslots inst (List.getElem?_mem hget)) hrn
      rw [Inv, et, eh, ed, ei]
      refine ⟨?_, ?_, ?_, hmem⟩
      · rw [hserved, hinflight, htk]
        omega
      · rw [hserved, hinflight, hhl]
        omega
      · rw [hserved, hinflight, hdp]
        omega

lemma inv_start {cfg : Config} {s : SysState} {i : Nat} {d : Int} {inst : Instance}
    (hinv : Inv cfg s) (hget : s.instances[i]? = some inst)
    (hhp : inst.hasParty = true) (hrn : inst.running = false) :
    Inv cfg { s with instances := modifyIdx (startRun d) i s.instances } := by
  obtain ⟨ht, hh, hd, hslots⟩ := hinv
  have hserved : servedSum (modifyIdx (startRun d) i s.instances) = servedSum s.instances :=
    congrArg List.sum
      (modifyIdx_map_congr (startRun d) (fun x => x.partiesServed)
        (fun x => rfl) i s.instances)
  have hinflight : inflightSum (modifyIdx (startRun d) i s.instances) =
      inflightSum s.instances :=
    congrArg List.sum
      (modifyIdx_map_congr (startRun d) (fun x => if x.hasParty then (1 : Int) else 0)
        (fun x => rfl) i s.instances)
  refine ⟨by rw [hserved, hinflight]; exact ht, by rw [hserved, hinflight]; exact hh,
    by rw [hserved, hinflight]; exact hd, ?_⟩
  intro x hx
  rcases modifyIdx_mem hx with hx2 | ⟨y, hy, hxy⟩
  · exact hslots x hx2
  · rw [hget] at hy
    cases hy
    subst hxy
    have h0 : inst.currentTimeElapsed = 0 :=
      (hslots inst (List.getElem?_mem hget)).2.2.2 hrn
    refine ⟨fun _ => by simpa [startRun] using hhp, ?_, ?_, ?_⟩
    · simp [startRun, h0]
    · simp only [startRun, h0]
      exact le_trans zero_le_one (le_max_left 1 d)
    · intro hr
      simp [startRun] at hr

lemma inv_tick {cfg : Config} {s : SysState} {i : Nat} {inst : Instance}
    (hinv : Inv cfg s) (hget : s.instances[i]? = some inst)
    (hrn : inst.running = true)
    (hlt : inst.currentTimeElapsed < ticksTotal inst.currDungeonDuration) :
    Inv cfg { s with instances := modifyIdx tickRun i s.instances } := by
  obtain ⟨ht, hh, hd, hslots⟩ := hinv
  have hserved : servedSum (modifyIdx tickRun i s.instances) = servedSum s.instances :=
    congrArg List.sum
      (modifyIdx_map_congr tickRun (fun x => x.partiesServed) (fun x => rfl) i s.instances)
  have hinflight : inflightSum (modifyIdx tickRun i s.instances) =
      inflightSum s.instances :=
    congrArg List.sum
      (modifyIdx_map_congr tickRun (fun x => if x.hasParty then (1 : Int) else 0)
        (fun x => rfl) i s.instances)
  refine ⟨by rw [hserved, hinflight]; exact ht, by rw [hserved, hinflight]; exact hh,
    by rw [hserved, hinflight]; exact hd, ?_⟩
  intro x hx
  rcases modifyIdx_mem hx with hx2 | ⟨y, hy, hxy⟩
  · exact hslots x hx2
  · rw [hget] at hy
    cases hy
    subst hxy
    obtain ⟨h1, h2, h3, h4⟩ := hslots inst (List.getElem?_mem hget)
    rw [ticksTotal_eq_max] at hlt
    refine ⟨fun _ => h1 hrn, by simp [tickRun]; omega, ?_, ?_⟩
    · simp only [tickRun]
      omega
    · intro hr
      rw [tickRun] at hr
      simp at hr
      rw [hrn] at hr
      exact absurd hr (by simp)

lemma inv_complete {cfg : Config} {s : SysState} {i : Nat} {inst : Instance}
    (hinv : Inv cfg s) (hget : s.instances[i]? = some inst)
    (hrn : inst.running = true) :
    Inv cfg { s with instances := modifyIdx completeRun i s.instances } := by
  obtain ⟨ht, hh, hd, hslots⟩ := hinv
  have hhp : inst.hasParty = true := (hslots inst (List.getElem?_mem hget)).1 hrn
  have hserved : servedSum (modifyIdx completeRun i s.instances) =
      servedSum s.instances + 1 := by
    unfold servedSum
    rw [modifyIdx_map_sum _ hget]
    simp [completeRun]
  have hinflight : inflightSum (modifyIdx completeRun i s.instances) =
      inflightSum s.instances - 1 := by
    unfold inflightSum
    rw [modifyIdx_map_sum _ hget]
    simp [completeRun, hhp]
    omega
  refine ⟨?_, ?_, ?_, ?_⟩
  · show s.tanks + servedSum (modifyIdx completeRun i s.instances) +
      inflightSum (modifyIdx completeRun i s.instances) = cfg.tanks
    rw [hserved, hinflight]
    omega
  · show s.healers + servedSum (modifyIdx completeRun i s.instances) +
      inflightSum (modifyIdx completeRun i s.instances) = cfg.healers
    rw [hserved, hinflight]
    omega
  · show s.dps + 3 * servedSum (modifyIdx completeRun i s.instances) +
      3 * inflightSum (modifyIdx completeRun i s.instances) = cfg.dps
    rw [hserved, hinflight]
    omega
  intro x hx
  rcases modifyIdx_mem hx with hx2 | ⟨y, hy, hxy⟩
  · exact hslots x hx2
  · rw [hget] at hy
    cases hy
    subst hxy
    refine ⟨fun hr => by simp [completeRun] at hr, by simp [completeRun], ?_, ?_⟩
    · simp only [completeRun]
      exact le_trans zero_le_one (le_max_left 1 _)
    · intro _
      simp [completeRun]

lemma step_inv {cfg : Config} {s s2 : SysState} (hinv : Inv cfg s)
    (hstep : Step cfg.t1 cfg.t2 s s2) : Inv cfg s2 := by
  cases hstep with
  | sched _ => exact sched_inv hinv
  | start i d inst _ hget hhp hrn _ _ => exact inv_start hinv hget hhp hrn
  | tick i inst hget hrn hlt => exact inv_tick hinv hget hrn hlt
  | complete i inst hget hrn _ => exact inv_complete hinv hget hrn

lemma reachable_inv {cfg : Config} {s : SysState} (hr : Reachable cfg s) :
    Inv cfg s := by
  induction hr with
  | refl => exact inv_init cfg
  | tail _ hstep ih => exact step_inv ih hstep

/-- The pool counters stay non-negative across a step: only the assignment
scan mutates them, and it debits only under the `≥ (1, 1, 3)` guard. -/
lemma step_nonneg {t1 t2 : Int} {s s2 : SysState}
    (h0 : 0 ≤ s.tanks ∧ 0 ≤ s.healers ∧ 0 ≤ s.dps)
    (hstep : Step t1 t2 s s2) :
    0 ≤ s2.tanks ∧ 0 ≤ s2.healers ∧ 0 ≤ s2.dps := by
  cases hstep with
  | sched _ =>
    by_cases hstop : s.stopFlag = true
    · rw [schedulerCycle_of_stop hstop]
      exact h0
    · rw [Bool.not_eq_true] at hstop
      obtain ⟨et, eh, ed, _⟩ := schedulerCycle_fields hstop
      rw [et, eh, ed]
      rcases hassigned : (assignScan s.tanks s.healers s.dps s.instances).partyAssigned with _ | _
      · rw [assignScan_not_assigned hassigned]
        exact h0
      · obtain ⟨hpool, htk, hhl, hdp, _⟩ := assignScan_assigned hassigned
        rw [htk, hhl, hdp]
        omega
  | start i d inst _ _ _ _ _ _ => exact h0
  | tick i inst _ _ _ => exact h0
  | complete i inst _ _ _ => exact h0

lemma reachable_nonneg {cfg : Config} {s : SysState}
    (h0 : 0 ≤ cfg.tanks ∧ 0 ≤ cfg.healers ∧ 0 ≤ cfg.dps)
    (hr : Reachable cfg s) :
    0 ≤ s.tanks ∧ 0 ≤ s.healers ∧ 0 ≤ s.dps := by
  induction hr with
  | refl => exact h0
  | tail _ hstep ih => exact step_nonneg ih hstep

lemma assignScan_map_id {t h d : Int} (l : List Instance) :
    (assignScan t h d l).instances.map (fun x => x.id) = l.map (fun x => x.id) := by
  rcases hassigned : (assignScan t h d l).partyAssigned with _ | _
  · rw [assignScan_not_assigned hassigned]
  · obtain ⟨_, _, _, _, i, inst, _, _, _, _, hinsts⟩ := assignScan_assigned hassigned
    rw [hinsts]
    exact modifyIdx_map_congr (fun x => { x with hasParty := true })
      (fun x => x.id) (fun x => rfl) i l

/-- Slot ids are untouched by every step: the scan only flips `hasParty`, and
the slot-thread steps only touch the run fields. -/
lemma step_ids {t1 t2 : Int} {s s2 : SysState} {L : List Int}
    (hstep : Step t1 t2 s s2)
    (hids : s.instances.map (fun x => x.id) = L) :
    s2.instances.map (fun x => x.id) = L := by
  cases hstep with
  | sched _ =>
    by_cases hstop : s.stopFlag = true
    · rw [schedulerCycle_of_stop hstop]
      exact hids
    · rw [Bool.not_eq_true] at hstop
      obtain ⟨_, _, _, ei⟩ := schedulerCycle_fields hstop
      rw [ei, assignScan_map_id]
      exact hids
  | start i d inst _ _ _ _ _ _ =>
    show (modifyIdx (startRun d) i s.instances).map _ = _
    rw [modifyIdx_map_congr (startRun d) (fun x => x.id) (fun x => rfl) i]
    exact hids
  | tick i inst _ _ _ =>
    show (modifyIdx tickRun i s.instances).map _ = _
    rw [modifyIdx_map_congr tickRun (fun x => x.id) (fun x => rfl) i]
    exact hids
  | complete i inst _ _ _ =>
    show (modifyIdx completeRun i s.instances).map _ = _
    rw [modifyIdx_map_congr completeRun (fun x => x.id) (fun x => rfl) i]
    exact hids

/-- Slot ids keep their creation-order values `1, …, n` in every reachable
state: no step changes an id or reorders the slot list. -/
lemma reachable_ids {cfg : Config} {s : SysState} (hr : Reachable cfg s) :
    s.instances.map (fun x => x.id) = idsList cfg.numInstances := by
  induction hr with
  | refl =>
    simp [initState, initInstances, initInstance, idsList, List.map_map]
  | tail _ hstep ih => exact step_ids hstep ih

/-- Read a single id off the ids invariant: the slot at position `j` has id
`j + 1`. -/
lemma ids_at {n : Nat} {l : List Instance} {j : Nat} {y : Instance}
    (hids : l.map (fun x => x.id) = idsList n)
    (hget : l[j]? = some y) : y.id = (j : Int) + 1 := by
  have hlen : l.length = n := by
    have h1 := congrArg List.length hids
    rwa [List.length_map, idsList, List.length_map, List.length_range] at h1
  have hj : j < n := by
    rw [← hlen]
    exact (List.getElem?_eq_some.mp hget).1
  have hmap := congrArg (fun t => t[j]?) hids
  simp only [List.getElem?_map, hget] at hmap
  have hr2 : (idsList n)[j]? = some ((j : Int) + 1) := by
    rw [idsList, List.getElem?_map, List.getElem?_range hj]
    rfl
  rw [hr2] at hmap
  simpa using hmap

lemma reachable_step {cfg : Config} {a b c : SysState}
    (hr : Reachable cfg a) (hs : Step cfg.t1 cfg.t2 a b) (he : b = c) :
    Reachable cfg c :=
  he ▸ Relation.ReflTransGen.tail hr hs

lemma singleton_get {c inst : Instance} {i : Nat}
    (h : ([c] : List Instance)[i]? = some inst) : i = 0 ∧ inst = c := by
  cases i with
  | zero =>
    simp only [List.getElem?_cons_zero, Option.some.injEq] at h
    exact ⟨rfl, h.symm⟩
  | succ n => simp at h

lemma initState_empty {cfg : Config} (hn : cfg.numInstances = 0) :
    (initState cfg).instances = [] := by
  simp [initState, initInstances, hn]

/-- With no slots and a pool that still satisfies the rule, one scheduler
cycle changes nothing: `hasMorePlayers` is true, so the stop branch is not
taken, and there is no slot to assign. -/
lemma schedulerCycle_empty_of_pool {s : SysState} (hi : s.instances = [])
    (hstop : s.stopFlag = false)
    (hp : s.tanks ≥ 1 ∧ s.healers ≥ 1 ∧ s.dps ≥ 3) :
    schedulerCycle s = s := by
  cases s with
  | mk t h d st l =>
    dsimp only at hi hstop hp
    subst hi
    subst hstop
    simp [schedulerCycle, assignScan, hp.1, hp.2.1, hp.2.2]

lemma step_empty_fixed {cfg : Config} {s s2 : SysState} (hi : s.instances = [])
    (hstop : s.stopFlag = false)
    (hp : s.tanks ≥ 1 ∧ s.healers ≥ 1 ∧ s.dps ≥ 3)
    (hstep : Step cfg.t1 cfg.t2 s s2) : s2 = s := by
  cases hstep with
  | sched _ => exact schedulerCycle_empty_of_pool hi hstop hp
  | start i d inst _ hget _ _ _ _ =>
    rw [hi] at hget
    simp at hget
  | tick i inst hget _ _ =>
    rw [hi] at hget
    simp at hget
  | complete i inst hget _ _ =>
    rw [hi] at hget
    simp at hget

/-- With no slots and a satisfiable pool, the system is stuck at its initial
state forever: no step changes anything, so the stop flag is never set. -/
lemma reachable_empty_fixed {cfg : Config} (hn : cfg.numInstances = 0)
    (hp : cfg.tanks ≥ 1 ∧ cfg.healers ≥ 1 ∧ cfg.dps ≥ 3) :
    ∀ s, Reachable cfg s → s = initState cfg := by
  intro s hr
  induction hr with
  | refl => rfl
  | tail _ hstep ih =>
    subst ih
    exact step_empty_fixed (initState_empty hn) rfl hp hstep

lemma c7_closed {s s2 : SysState} (h : C7Set s)
    (hstep : Step cfgC7.t1 cfgC7.t2 s s2) : C7Set s2 := by
  cases hstep with
  | sched _ =>
    rcases h with rfl | rfl | rfl | rfl | rfl | rfl | rfl <;>
      (unfold C7Set; decide)
  | start i d inst hstop hget hhp hrn hd1 hd2 =>
    have e1 : cfgC7.t1 = 2 := rfl
    have e2 : cfgC7.t2 = 2 := rfl
    have hd : d = 2 := by omega
    subst hd
    rcases h with rfl | rfl | rfl | rfl | rfl | rfl | rfl <;>
      (obtain ⟨hi0, hc⟩ := singleton_get hget
       subst hi0
       subst hc
       first
         | (unfold C7Set; decide)
         | exact absurd hhp (by decide))
  | tick i inst hget hrn hlt =>
    rcases h with rfl | rfl | rfl | rfl | rfl | rfl | rfl <;>
      (obtain ⟨hi0, hc⟩ := singleton_get hget
       subst hi0
       subst hc
       first
         | (unfold C7Set; decide)
         | exact absurd hrn (by decide)
         | exact absurd hlt (by decide))
  | complete i inst hget hrn hel =>
    rcases h with rfl | rfl | rfl | rfl | rfl | rfl | rfl <;>
      (obtain ⟨hi0, hc⟩ := singleton_get hget
       subst hi0
       subst hc
       first
         | (unfold C7Set; decide)
         | exact absurd hrn (by decide))

lemma c7_reach {s : SysState} (hr : Reachable cfgC7 s) : C7Set s := by
  induction hr with
  | refl => unfold C7Set; decide
  | tail _ hstep ih => exact c7_closed ih hstep

lemma c7_reach_final : Reachable cfgC7 c7Final := by
  have r0 : Reachable cfgC7 (initState cfgC7) := Relation.ReflTransGen.refl
  have r1 : Reachable cfgC7
      ⟨0, 0, 0, false, [⟨1, true, false, 0, 0, 0, 0⟩]⟩ :=
    reachable_step r0 (Step.sched (by decide)) (by decide)
  have r2 : Reachable cfgC7
      ⟨0, 0, 0, false, [⟨1, true, true, 0, 0, 0, 2⟩]⟩ :=
    reachable_step r1
      (Step.start 0 2 ⟨1, true, false, 0, 0, 0, 0⟩ (by decide) (by decide)
        (by decide) (by decide) (by decide) (by decide)) (by decide)
  have r3 : Reachable cfgC7
      ⟨0, 0, 0, false, [⟨1, true, true, 0, 0, 1, 2⟩]⟩ :=
    reachable_step r2
      (Step.tick 0 ⟨1, true, true, 0, 0, 0, 2⟩ (by decide) (by decide)
        (by decide)) (by decide)
  have r4 : Reachable cfgC7
      ⟨0, 0, 0, false, [⟨1, true, true, 0, 0, 2, 2⟩]⟩ :=
    reachable_step r3
      (Step.tick 0 ⟨1, true, true, 0, 0, 1, 2⟩ (by decide) (by decide)
        (by decide)) (by decide)
  have r5 : Reachable cfgC7
      ⟨0, 0, 0, false, [⟨1, false, false, 1, 2, 0, 2⟩]⟩ :=
    reachable_step r4
      (Step.complete 0 ⟨1, true, true, 0, 0, 2, 2⟩ (by decide) (by decide)
        (by decide)) (by decide)
  exact reachable_step r5 (Step.sched (by decide)) (by decide)

lemma c7_elapsed_two : Reachable cfgC7 ⟨0, 0, 0, false, [⟨1, true, true, 0, 0, 2, 2⟩]⟩ := by
  have r0 : Reachable cfgC7 (initState cfgC7) := Relation.ReflTransGen.refl
  have r1 : Reachable cfgC7
      ⟨0, 0, 0, false, [⟨1, true, false, 0, 0, 0, 0⟩]⟩ :=
    reachable_step r0 (Step.sched (by decide)) (by decide)
  have r2 : Reachable cfgC7
      ⟨0, 0, 0, false, [⟨1, true, true, 0, 0, 0, 2⟩]⟩ :=
    reachable_step r1
      (Step.start 0 2 ⟨1, true, false, 0, 0, 0, 0⟩ (by decide) (by decide)
        (by decide) (by decide) (by decide) (by decide)) (by decide)
  have r3 : Reachable cfgC7
      ⟨0, 0, 0, false, [⟨1, true, true, 0, 0, 1, 2⟩]⟩ :=
    reachable_step r2
      (Step.tick 0 ⟨1, true, true, 0, 0, 0, 2⟩ (by decide) (by decide)
        (by decide)) (by decide)
  exact reachable_step r3
    (Step.tick 0 ⟨1, true, true, 0, 0, 1, 2⟩ (by decide) (by decide)
      (by decide)) (by decide)

lemma c5_reach_bad : Reachable cfgC5 badState := by
  have r0 : Reachable cfgC5 (initState cfgC5) := Relation.ReflTransGen.refl
  have r1 : Reachable cfgC5
      ⟨0, 0, 0, false, [⟨1, true, false, 0, 0, 0, 0⟩]⟩ :=
    reachable_step r0 (Step.sched (by decide)) (by decide)
  have r2 : Reachable cfgC5
      ⟨0, 0, 0, false, [⟨1, true, true, 0, 0, 0, 0⟩]⟩ :=
    reachable_step r1
      (Step.start 0 0 ⟨1, true, false, 0, 0, 0, 0⟩ (by decide) (by decide)
        (by decide) (by decide) (by decide) (by decide)) (by decide)
  exact reachable_step r2
    (Step.tick 0 ⟨1, true, true, 0, 0, 0, 0⟩ (by decide) (by decide)
      (by decide)) (by decide)

lemma assignScan2_proj (t h d pn : Int) (l : List Instance) :
    (assignScan2 t h d pn l).tanks = (assignScan t h d l).tanks ∧
    (assignScan2 t h d pn l).healers = (assignScan t h d l).healers ∧
    (assignScan2 t h d pn l).dps = (assignScan t h d l).dps ∧
    (assignScan2 t h d pn l).instances = (assignScan t h d l).instances ∧
    (assignScan2 t h d pn l).partyAssigned = (assignScan t h d l).partyAssigned := by
  induction l with
  | nil => exact ⟨rfl, rfl, rfl, rfl, rfl⟩
  | cons x xs ih =>
    by_cases hc : x.hasParty = false ∧ x.running = false ∧
        t ≥ 1 ∧ h ≥ 1 ∧ d ≥ 3
    · simp [assignScan2, assignScan, hc]
    · simp only [assignScan2, assignScan, if_neg hc]
      exact ⟨ih.1, ih.2.1, ih.2.2.1, by rw [ih.2.2.2.1], ih.2.2.2.2⟩

lemma schedulerCycle2_proj (s : SysState2) :
    toSysState (schedulerCycle2 s) = schedulerCycle (toSysState s) := by
  cases s with
  | mk t h d pn st l =>
    cases st with
    | true => rfl
    | false =>
      obtain ⟨e1, e2, e3, e4, _⟩ := assignScan2_proj t h d pn l
      simp only [schedulerCycle2, schedulerCycle, toSysState]
      rw [e1, e2, e3, e4]
      split_ifs <;> rfl

lemma step2_to_step {t1 t2 : Int} {a b : SysState2} (hstep : Step2 t1 t2 a b) :
    Step t1 t2 (toSysState a) (toSysState b) := by
  cases hstep with
  | sched hw =>
    rw [schedulerCycle2_proj]
    exact Step.sched hw
  | start i d inst h1 h2 h3 h4 h5 h6 =>
    exact Step.start i d inst h1 h2 h3 h4 h5 h6
  | tick i inst h1 h2 h3 =>
    exact Step.tick i inst h1 h2 h3
  | complete i inst h1 h2 h3 =>
    exact Step.complete i inst h1 h2 h3

lemma step_to_step2 {t1 t2 : Int} {a : SysState2} {s2 : SysState}
    (hstep : Step t1 t2 (toSysState a) s2) :
    ∃ b, Step2 t1 t2 a b ∧ toSysState b = s2 := by
  cases hstep with
  | sched hw =>
    exact ⟨schedulerCycle2 a, Step2.sched hw, schedulerCycle2_proj a⟩
  | start i d inst h1 h2 h3 h4 h5 h6 =>
    exact ⟨{ a with instances := modifyIdx (startRun d) i a.instances },
      Step2.start i d inst h1 h2 h3 h4 h5 h6, rfl⟩
  | tick i inst h1 h2 h3 =>
    exact ⟨{ a with instances := modifyIdx tickRun i a.instances },
      Step2.tick i inst h1 h2 h3, rfl⟩
  | complete i inst h1 h2 h3 =>
    exact ⟨{ a with instances := modifyIdx completeRun i a.instances },
      Step2.complete i inst h1 h2 h3, rfl⟩

/-- C2: for every reachable state, the sum over all slots of `partiesServed`
times the requirement vector `(1, 1, 3)`, plus the current pool counters, plus
`(1, 1, 3)` for each slot currently holding an in-flight assignment
(`hasParty`), equals the initial pool counters component-wise. -/
theorem claim_C2 (cfg : Config) (s : SysState) (hr : Reachable cfg s) :
    servedSum s.instances * 1 + s.tanks + inflightSum s.instances * 1 = cfg.tanks ∧
    servedSum s.instances * 1 + s.healers + inflightSum s.instances * 1 = cfg.healers ∧
    servedSum s.instances * 3 + s.dps + inflightSum s.instances * 3 = cfg.dps := by
  obtain ⟨ht, hh, hd, _⟩ := reachable_inv hr
  exact ⟨by omega, by omega, by omega⟩

/-- Witness for C2 at the initial state of a concrete configuration. -/
theorem claim_C2_witness :
    Reachable ⟨2, 4, 5, 9, 1, 3⟩ (initState ⟨2, 4, 5, 9, 1, 3⟩) ∧
    servedSum (initState ⟨2, 4, 5, 9, 1, 3⟩).instances * 1 +
      (initState ⟨2, 4, 5, 9, 1, 3⟩).tanks +
      inflightSum (initState ⟨2, 4, 5, 9, 1, 3⟩).instances * 1 =
      (⟨2, 4, 5, 9, 1, 3⟩ : Config).tanks :=
  ⟨Relation.ReflTransGen.refl,
    (claim_C2 ⟨2, 4, 5, 9, 1, 3⟩ _ Relation.ReflTransGen.refl).1⟩

/-- C3: for every non-negative initial configuration and every reachable
state, each of the three pool counters is non-negative. -/
theorem claim_C3 (cfg : Config) (s : SysState)
    (h0 : 0 ≤ cfg.tanks ∧ 0 ≤ cfg.healers ∧ 0 ≤ cfg.dps)
    (hr : Reachable cfg s) :
    0 ≤ s.tanks ∧ 0 ≤ s.healers ∧ 0 ≤ s.dps :=
  reachable_nonneg h0 hr

/-- Witness for C3 at the initial state of a concrete configuration. -/
theorem claim_C3_witness :
    (0 ≤ (⟨1, 2, 2, 6, 1, 1⟩ : Config).tanks ∧
      0 ≤ (⟨1, 2, 2, 6, 1, 1⟩ : Config).healers ∧
      0 ≤ (⟨1, 2, 2, 6, 1, 1⟩ : Config).dps) ∧
    Reachable ⟨1, 2, 2, 6, 1, 1⟩ (initState ⟨1, 2, 2, 6, 1, 1⟩) ∧
    (0 ≤ (initState ⟨1, 2, 2, 6, 1, 1⟩).tanks ∧
      0 ≤ (initState ⟨1, 2, 2, 6, 1, 1⟩).healers ∧
      0 ≤ (initState ⟨1, 2, 2, 6, 1, 1⟩).dps) :=
  ⟨by decide, Relation.ReflTransGen.refl,
    claim_C3 ⟨1, 2, 2, 6, 1, 1⟩ _ (by decide) Relation.ReflTransGen.refl⟩

/-- C4: with a free slot present, the inline pool-consumption check succeeds
iff `tanks ≥ 1 ∧ healers ≥ 1 ∧ dps ≥ 3` holds beforehand; on success it debits
exactly `(1, 1, 3)`, and when it fails no counter (and no slot) is mutated. -/
theorem claim_C4 (t h d : Int) (l : List Instance)
    (hfree : l.any (fun x => !x.hasParty && !x.running) = true) :
    ((assignScan t h d l).partyAssigned = true ↔ (t ≥ 1 ∧ h ≥ 1 ∧ d ≥ 3)) ∧
    ((assignScan t h d l).partyAssigned = true →
      (assignScan t h d l).tanks = t - 1 ∧
      (assignScan t h d l).healers = h - 1 ∧
      (assignScan t h d l).dps = d - 3) ∧
    ((assignScan t h d l).partyAssigned = false →
      (assignScan t h d l).tanks = t ∧
      (assignScan t h d l).healers = h ∧
      (assignScan t h d l).dps = d ∧
      (assignScan t h d l).instances = l) := by
  refine ⟨?_, ?_, ?_⟩
  · rw [assignScan_assigned_iff]
    constructor
    · exact fun hx => hx.1
    · intro hp
      refine ⟨hp, ?_⟩
      rw [List.any_eq_true] at hfree
      obtain ⟨x, hx, hfx⟩ := hfree
      simp only [Bool.and_eq_true, Bool.not_eq_true'] at hfx
      exact ⟨x, hx, hfx.1, hfx.2⟩
  · intro ha
    obtain ⟨_, h1, h2, h3, _⟩ := assignScan_assigned ha
    exact ⟨h1, h2, h3⟩
  · intro hna
    rw [assignScan_not_assigned hna]
    exact ⟨rfl, rfl, rfl, rfl⟩

/-- Witness for C4 on a single free slot with the exact pool `(1, 1, 3)`. -/
theorem claim_C4_witness :
    ([initInstance 1].any (fun x => !x.hasParty && !x.running) = true) ∧
    (((assignScan 1 1 3 [initInstance 1]).partyAssigned = true ↔
        ((1 : Int) ≥ 1 ∧ (1 : Int) ≥ 1 ∧ (3 : Int) ≥ 3)) ∧
      ((assignScan 1 1 3 [initInstance 1]).partyAssigned = true →
        (assignScan 1 1 3 [initInstance 1]).tanks = 1 - 1 ∧
        (assignScan 1 1 3 [initInstance 1]).healers = 1 - 1 ∧
        (assignScan 1 1 3 [initInstance 1]).dps = 3 - 3) ∧
      ((assignScan 1 1 3 [initInstance 1]).partyAssigned = false →
        (assignScan 1 1 3 [initInstance 1]).tanks = 1 ∧
        (assignScan 1 1 3 [initInstance 1]).healers = 1 ∧
        (assignScan 1 1 3 [initInstance 1]).dps = 3 ∧
        (assignScan 1 1 3 [initInstance 1]).instances = [initInstance 1])) :=
  ⟨by decide, claim_C4 1 1 3 [initInstance 1] (by decide)⟩

/-- C9: in every reachable state, a running slot holds a party: `running`
implies `hasParty`. -/
theorem claim_C9 (cfg : Config) (s : SysState) (hr : Reachable cfg s) :
    ∀ inst ∈ s.instances, inst.running = true → inst.hasParty = true :=
  fun inst hm hrun => (((reachable_inv hr).2.2.2) inst hm).1 hrun

/-- Witness for C9 at a reachable state of Scenario A whose slot is mid-run. -/
theorem claim_C9_witness :
    Reachable cfgC7 ⟨0, 0, 0, false, [⟨1, true, true, 0, 0, 2, 2⟩]⟩ ∧
    ∀ inst ∈ (⟨0, 0, 0, false, [⟨1, true, true, 0, 0, 2, 2⟩]⟩ : SysState).instances,
      inst.running = true → inst.hasParty = true :=
  ⟨c7_elapsed_two, claim_C9 cfgC7 _ c7_elapsed_two⟩

/-- C10: the run loop of `instanceThread` performs one unconditional tick and
then one tick per iteration of `for (int i = 1; i < duration; ++i)`, so a run
of drawn duration `d` ends with elapsed `max 1 d` — in particular a drawn
duration of 0 still occupies one tick — while completion adds exactly the
drawn duration to `totalTime` and one to `partiesServed`. -/
theorem claim_C10 :
    (∀ d : Int, ticksTotal d = max 1 d) ∧
    ticksTotal 0 = 1 ∧
    (∀ inst : Instance,
      (completeRun inst).totalTime = inst.totalTime + inst.currDungeonDuration ∧
      (completeRun inst).partiesServed = inst.partiesServed + 1) :=
  ⟨ticksTotal_eq_max, by decide, fun inst => ⟨rfl, rfl⟩⟩

/-- C5 as stated is false: with the validated configuration `cfgC5`
(minimum duration 0), the run loop's unconditional first tick pushes the
elapsed counter of an occupied slot strictly above its drawn duration. -/
theorem claim_C5_counterexample :
    Reachable cfgC5 badState ∧ badState.instances = [badInstance] ∧
    badInstance.hasParty = true ∧
    ¬(badInstance.currentTimeElapsed ≤ badInstance.currDungeonDuration) :=
  ⟨c5_reach_bad, rfl, rfl, by decide⟩

/-- C5 amended: for every reachable state, an occupied slot satisfies
`0 ≤ elapsed ≤ max 1 duration` (so `elapsed ≤ duration` for every drawn
duration ≥ 1), and an idle slot has `elapsed = 0`. -/
theorem claim_C5_amended (cfg : Config) (s : SysState) (hr : Reachable cfg s) :
    ∀ inst ∈ s.instances,
      (inst.hasParty = true → 0 ≤ inst.currentTimeElapsed ∧
        inst.currentTimeElapsed ≤ max 1 inst.currDungeonDuration) ∧
      (inst.hasParty = false → inst.currentTimeElapsed = 0) := by
  intro inst hm
  obtain ⟨h1, h2, h3, h4⟩ := (reachable_inv hr).2.2.2 inst hm
  refine ⟨fun _ => ⟨h2, h3⟩, fun hfp => ?_⟩
  apply h4
  cases hrn : inst.running with
  | false => rfl
  | true =>
    rw [h1 hrn] at hfp
    exact Bool.noConfusion hfp

/-- Witness for the amended C5 at the occupied duration-0 state itself. -/
theorem claim_C5_witness :
    Reachable cfgC5 badState ∧
    ∀ inst ∈ badState.instances,
      (inst.hasParty = true → 0 ≤ inst.currentTimeElapsed ∧
        inst.currentTimeElapsed ≤ max 1 inst.currDungeonDuration) ∧
      (inst.hasParty = false → inst.currentTimeElapsed = 0) :=
  ⟨c5_reach_bad, claim_C5_amended cfgC5 badState c5_reach_bad⟩

/-- C6: in a wake cycle the slot list after the scan is exactly the scan
result; when no party is assigned the list is unchanged, and when one is
assigned exactly one slot is modified — the free slot of least index, which by
the id invariant carries the least id among all free slots — and no later slot
is touched. -/
theorem claim_C6 (cfg : Config) (s : SysState) (hr : Reachable cfg s)
    (hstop : s.stopFlag = false) :
    (schedulerCycle s).instances =
      (assignScan s.tanks s.healers s.dps s.instances).instances ∧
    ((assignScan s.tanks s.healers s.dps s.instances).partyAssigned = false →
      (assignScan s.tanks s.healers s.dps s.instances).instances = s.instances) ∧
    ((assignScan s.tanks s.healers s.dps s.instances).partyAssigned = true →
      ∃ i inst, s.instances[i]? = some inst ∧
        inst.hasParty = false ∧ inst.running = false ∧
        (assignScan s.tanks s.healers s.dps s.instances).instances =
          modifyIdx (fun x => { x with hasParty := true }) i s.instances ∧
        (∀ (j : Nat) (y : Instance), j < i → s.instances[j]? = some y →
          ¬(y.hasParty = false ∧ y.running = false)) ∧
        (∀ (j : Nat) (y : Instance), s.instances[j]? = some y →
          y.hasParty = false → y.running = false → inst.id ≤ y.id)) := by
  refine ⟨(schedulerCycle_fields hstop).2.2.2, ?_, ?_⟩
  · intro hna
    rw [assignScan_not_assigned hna]
  · intro ha
    obtain ⟨_, _, _, _, i, inst, hget, hfp, hrn, hmin, hinsts⟩ :=
      assignScan_assigned ha
    refine ⟨i, inst, hget, hfp, hrn, hinsts, hmin, ?_⟩
    intro j y hjget hyp hyr
    have hids := reachable_ids hr
    have hidInst : inst.id = (i : Int) + 1 := ids_at hids hget
    have hidY : y.id = (j : Int) + 1 := ids_at hids hjget
    by_cases hij : j < i
    · exact absurd ⟨hyp, hyr⟩ (hmin j y hij hjget)
    · rw [hidInst, hidY]
      omega

/-- Witness for C6 at the initial state of a two-slot configuration. -/
theorem claim_C6_witness :
    Reachable ⟨2, 1, 1, 3, 1, 1⟩ (initState ⟨2, 1, 1, 3, 1, 1⟩) ∧
    (initState ⟨2, 1, 1, 3, 1, 1⟩).stopFlag = false ∧
    (schedulerCycle (initState ⟨2, 1, 1, 3, 1, 1⟩)).instances =
      (assignScan (initState ⟨2, 1, 1, 3, 1, 1⟩).tanks
        (initState ⟨2, 1, 1, 3, 1, 1⟩).healers
        (initState ⟨2, 1, 1, 3, 1, 1⟩).dps
        (initState ⟨2, 1, 1, 3, 1, 1⟩).instances).instances :=
  ⟨Relation.ReflTransGen.refl, rfl,
    (claim_C6 ⟨2, 1, 1, 3, 1, 1⟩ _ Relation.ReflTransGen.refl rfl).1⟩

/-- C1 as stated is false: with zero instances and pool `(1, 1, 3)` the wake
condition holds (empty-instance disjunct) but the first scheduler cycle does
not set the stop flag, because `hasMorePlayers` is still true. -/
theorem claim_C1_counterexample :
    cfgC1.numInstances = 0 ∧ wakeCond (initState cfgC1) ∧
    (schedulerCycle (initState cfgC1)).stopFlag = false := by
  decide

/-- C1 amended: with zero instances the scheduler wakes immediately, and its
first cycle sets the stop flag iff the pool does not satisfy the party rule;
when the pool does satisfy it, the stop flag is never set in any reachable
state, so the system never terminates. -/
theorem claim_C1_amended (cfg : Config) (hn : cfg.numInstances = 0) :
    wakeCond (initState cfg) ∧
    ((schedulerCycle (initState cfg)).stopFlag = true ↔
      ¬(cfg.tanks ≥ 1 ∧ cfg.healers ≥ 1 ∧ cfg.dps ≥ 3)) ∧
    ((cfg.tanks ≥ 1 ∧ cfg.healers ≥ 1 ∧ cfg.dps ≥ 3) →
      ∀ s, Reachable cfg s → s.stopFlag = false) := by
  have hi : (initState cfg).instances = [] := initState_empty hn
  refine ⟨?_, ?_, ?_⟩
  · unfold wakeCond
    right; right; right
    exact hi
  · rw [schedulerCycle_stopFlag rfl, hi]
    simp [assignScan, initState]
  · intro hp s hr
    rw [reachable_empty_fixed hn hp s hr]
    rfl

/-- Witness for the amended C1 at the zero-instance configuration `cfgC1`. -/
theorem claim_C1_witness :
    cfgC1.numInstances = 0 ∧ wakeCond (initState cfgC1) ∧
    ((schedulerCycle (initState cfgC1)).stopFlag = true ↔
      ¬(cfgC1.tanks ≥ 1 ∧ cfgC1.healers ≥ 1 ∧ cfgC1.dps ≥ 3)) ∧
    (initState cfgC1).stopFlag = false := by
  have h := claim_C1_amended cfgC1 rfl
  exact ⟨rfl, h.1, h.2.1, h.2.2 (by decide) _ Relation.ReflTransGen.refl⟩

/-- C7: under Scenario A (`cfgC7`), every reachable state carries at most one
assignment (completed plus in-flight), every stopped reachable state is
exactly the final state — empty pool `(0, 0, 0)`, `partiesServed = 1`,
`totalTime = 2` — the final state and the mid-run state with elapsed 2 are
both reachable, so the single run advances the elapsed counter to exactly 2
before shutdown. -/
theorem claim_C7 :
    (∀ s, Reachable cfgC7 s →
      servedSum s.instances + inflightSum s.instances ≤ 1 ∧
      (s.stopFlag = true → s = c7Final)) ∧
    Reachable cfgC7 c7Final ∧
    c7Final.stopFlag = true ∧
    c7Final.tanks = 0 ∧ c7Final.healers = 0 ∧ c7Final.dps = 0 ∧
    c7Final.instances = [⟨1, false, false, 1, 2, 0, 2⟩] ∧
    Reachable cfgC7 ⟨0, 0, 0, false, [⟨1, true, true, 0, 0, 2, 2⟩]⟩ := by
  refine ⟨?_, c7_reach_final, rfl, rfl, rfl, rfl, rfl, c7_elapsed_two⟩
  intro s hr
  have h := c7_reach hr
  unfold C7Set at h
  rcases h with rfl | rfl | rfl | rfl | rfl | rfl | rfl <;>
    exact ⟨by decide, by decide⟩

/-- Witness for C7 at the reachable final state. -/
theorem claim_C7_witness :
    Reachable cfgC7 c7Final ∧
    servedSum c7Final.instances + inflightSum c7Final.instances ≤ 1 ∧
    (c7Final.stopFlag = true → c7Final = c7Final) :=
  ⟨claim_C7.2.1, (claim_C7.1 c7Final claim_C7.2.1).1,
    (claim_C7.1 c7Final claim_C7.2.1).2⟩

/-- C8: the cores of the two shipped versions are equivalent.  The startup
states agree after forgetting `partyNum`, the scheduler cycles commute with
that projection, and every step of either version is matched by a step of the
other with the same observable effect; the slot-thread code is textually
identical in both versions, so the slot steps are shared.  Hence from the same
configuration and drawn durations both versions produce identical sequences of
pool counters, slot fields, and stop flag. -/
theorem claim_C8 :
    (∀ cfg : Config, toSysState (initState2 cfg) = initState cfg) ∧
    (∀ s : SysState2, toSysState (schedulerCycle2 s) = schedulerCycle (toSysState s)) ∧
    (∀ (t1 t2 : Int) (a b : SysState2), Step2 t1 t2 a b →
      Step t1 t2 (toSysState a) (toSysState b)) ∧
    (∀ (t1 t2 : Int) (a : SysState2) (s2 : SysState),
      Step t1 t2 (toSysState a) s2 →
      ∃ b, Step2 t1 t2 a b ∧ toSysState b = s2) :=
  ⟨fun _ => rfl, schedulerCycle2_proj,
    fun _ _ _ _ h => step2_to_step h,
    fun _ _ _ _ h => step_to_step2 h⟩

/-- Witness for C8 on a concrete scheduler step of the part_000 semantics. -/
theorem claim_C8_witness :
    Step2 2 2 (initState2 ⟨1, 1, 1, 3, 2, 2⟩)
      (schedulerCycle2 (initState2 ⟨1, 1, 1, 3, 2, 2⟩)) ∧
    Step 2 2 (toSysState (initState2 ⟨1, 1, 1, 3, 2, 2⟩))
      (toSysState (schedulerCycle2 (initState2 ⟨1, 1, 1, 3, 2, 2⟩))) :=
  ⟨Step2.sched (by decide),
    claim_C8.2.2.1 2 2 _ _ (Step2.sched (by decide))⟩

end Dungeon
